import Mathlib

/-!
# Verification of `scripts/export_telethon_session.py`

A shallow embedding of the Telethon session-bundle export script and of the
bundle codec it feeds (the JSON serialisation performed by `json.dump` with
`ensure_ascii=False, indent=2`, and the decoder consuming those bundles).

Modelling conventions:
* JSON values produced by `json.load` are modelled by `Value`; numbers are
  modelled as integers (the credential files carry ids and strings, no
  floats).
* Python `dict`s are insertion-ordered association lists with unique keys;
  `dict.get` is `List.lookup` (first match), missing keys give `none`,
  which Python represents as `None` and `json.dump` serialises as `null`.
* Python truthiness (`not x`) is `Value.truthy`.
* `str.strip()` is `pyStrip` (leading/trailing whitespace removed).
* The effectful pieces (reading the metadata file, opening the Telethon
  client, writing the output file) enter as parameters: the decoded
  metadata map, the session-file stem, and the serialised string session.
-/

/-- A JSON value as produced by `json.load` / consumed by `json.dump`. -/
inductive Value where
  | null : Value
  | bool (b : Bool) : Value
  | int (n : Int) : Value
  | str (s : String) : Value
  | arr (elems : List Value) : Value
  | obj (members : List (String × Value)) : Value

/-- Python truthiness of a JSON value (`bool(x)`). -/
def Value.truthy : Value → Bool
  | .null => false
  | .bool b => b
  | .int n => n != 0
  | .str s => !s.isEmpty
  | .arr elems => !elems.isEmpty
  | .obj members => !members.isEmpty

/-- A decoded metadata file: an insertion-ordered JSON object. -/
abbrev Meta := List (String × Value)

/-- `str.strip()` with no argument: drop leading and trailing whitespace. -/
def pyStrip (s : String) : String :=
  String.mk (((s.data.dropWhile Char.isWhitespace).reverse.dropWhile
    Char.isWhitespace).reverse)

/-- `meta.get(key)`: first binding of `key`, `none` when absent. -/
def metaGet (meta : Meta) (key : String) : Option Value :=
  meta.lookup key

/--
`detect_name(meta, session_path)`: return the first of the metadata fields
`name`, `session_file`, `phone`, `username` that is a string with
non-whitespace content (stripped); otherwise the session-path stem.
-/
def detect_name (meta : Meta) (sessionStem : String) : String :=
  detectLoop meta ["name", "session_file", "phone", "username"] sessionStem
where
  detectLoop (meta : Meta) : List String → String → String
    | [], stem => stem
    | key :: keys, stem =>
      match metaGet meta key with
      | some (.str value) =>
        if pyStrip value ≠ "" then pyStrip value else detectLoop meta keys stem
      | _ => detectLoop meta keys stem

/-- The command-line arguments of the script (after `argparse`). -/
structure Args where
  /-- `--name`, default `""`. -/
  name : String := ""
  /-- `--pool`, default `"default"`. -/
  pool : String := "default"
  /-- `--api-id` (`type=int`), default `None`. -/
  api_id : Option Int := none
  /-- `--api-hash`, default `None`. -/
  api_hash : Option String := none

/-- The JSON bundle the script writes. -/
structure Bundle where
  name : String
  pool : String
  api_id : Value
  api_hash : Value
  phone : Value
  username : Value
  string_session : String
  metadata : Meta

/-- `api_id = args.api_id if args.api_id is not None else metadata.get("app_id")`. -/
def effApiId (args : Args) (metadata : Meta) : Value :=
  match args.api_id with
  | some n => .int n
  | none => (metaGet metadata "app_id").getD .null

/-- `api_hash = args.api_hash if args.api_hash is not None else metadata.get("app_hash")`. -/
def effApiHash (args : Args) (metadata : Meta) : Value :=
  match args.api_hash with
  | some s => .str s
  | none => (metaGet metadata "app_hash").getD .null

/-- The message of the `SystemExit` raised when validation fails. -/
def exportErrMsg : String :=
  "metadata must include app_id and app_hash (or pass overrides)"

/--
The pure core of `main`: from the parsed arguments, the decoded metadata,
the session-file stem and the serialised string session, either the
validation failure or the bundle that is written to the output file.
-/
def exportBundle (args : Args) (metadata : Meta) (sessionStem : String)
    (stringSession : String) : Except String Bundle :=
  let api_id := effApiId args metadata
  let api_hash := effApiHash args metadata
  if !api_id.truthy || !api_hash.truthy then
    .error exportErrMsg
  else
    let session_name :=
      if pyStrip args.name ≠ "" then pyStrip args.name else detect_name metadata sessionStem
    .ok
      { name := session_name
        pool := if pyStrip args.pool ≠ "" then pyStrip args.pool else "default"
        api_id := api_id
        api_hash := api_hash
        phone := (metaGet metadata "phone").getD .null
        username := (metaGet metadata "username").getD .null
        string_session := stringSession
        metadata := metadata }

/-- The JSON object literal the script builds and dumps (key order as written). -/
def bundleValue (b : Bundle) : Value :=
  .obj
    [ ("name", .str b.name)
    , ("pool", .str b.pool)
    , ("api_id", b.api_id)
    , ("api_hash", b.api_hash)
    , ("phone", b.phone)
    , ("username", b.username)
    , ("string_session", .str b.string_session)
    , ("metadata", .obj b.metadata) ]

/-- The keys of a JSON object (empty for non-objects). -/
def objKeys : Value → List String
  | .obj members => members.map Prod.fst
  | _ => []

/-- Process outcome of a failing run: the `SystemExit`/re-raised exception is
surfaced on stderr and the interpreter exits unsuccessfully. -/
def runExitCode (args : Args) (metadata : Meta) (sessionStem : String)
    (stringSession : String) : Nat :=
  match exportBundle args metadata sessionStem stringSession with
  | .ok _ => 0
  | .error _ => 1

/-- The stderr lines of a run (the surfaced error message, if any). -/
def runStderr (args : Args) (metadata : Meta) (sessionStem : String)
    (stringSession : String) : List String :=
  match exportBundle args metadata sessionStem stringSession with
  | .ok _ => []
  | .error msg => [msg]

/-- Field lookup in a JSON object value (`none` for non-objects). -/
def objGet : Value → String → Option Value
  | .obj members, key => members.lookup key
  | _, _ => none

/--
The spec's name-resolution policy, stated independently of the loop in
`detect_name`: among the candidate keys in order, keep those whose metadata
value is a string with non-whitespace content, stripped; the first such
value, else the fallback stem.
-/
def detectNameSpec (meta : Meta) (sessionStem : String) : String :=
  ((["name", "session_file", "phone", "username"].filterMap fun key =>
    match metaGet meta key with
    | some (.str value) => if pyStrip value = "" then none else some (pyStrip value)
    | _ => none).head?).getD sessionStem

/-- Does the character list start with the given pattern? -/
def startsWithChars : List Char → List Char → Bool
  | _, [] => true
  | [], _ :: _ => false
  | c :: cs, d :: ds => c == d && startsWithChars cs ds

/-- Does the character list contain the pattern as a contiguous run? -/
def containsChars : List Char → List Char → Bool
  | [], pattern => pattern.isEmpty
  | c :: cs, pattern => startsWithChars (c :: cs) pattern || containsChars cs pattern

/-! ## The bundle codec

The encoder mirrors `json.dump(bundle, fh, ensure_ascii=False, indent=2)`
followed by `fh.write("\n")` (lines 104–107 of the script): two-space
indentation, `", "`-free item separators (`,` then newline when indented),
`": "` key separators, insertion key order, non-ASCII characters kept
verbatim, and the string escapes of Python's `json` module.
-/

/-- JSON whitespace. -/
def isWsChar (c : Char) : Bool :=
  c.toNat == 32 || c.toNat == 9 || c.toNat == 10 || c.toNat == 13

/-- ASCII decimal digit test. -/
def isDigitChar (c : Char) : Bool :=
  48 ≤ c.toNat && c.toNat ≤ 57

/-- The decimal digit character for `n < 10`. -/
def digitChar : Nat → Char
  | 0 => '0' | 1 => '1' | 2 => '2' | 3 => '3' | 4 => '4'
  | 5 => '5' | 6 => '6' | 7 => '7' | 8 => '8' | 9 => '9'
  | _ => '*'

/-- The lower-case hex digit character for `n < 16`. -/
def hexChar : Nat → Char
  | 0 => '0' | 1 => '1' | 2 => '2' | 3 => '3' | 4 => '4'
  | 5 => '5' | 6 => '6' | 7 => '7' | 8 => '8' | 9 => '9'
  | 10 => 'a' | 11 => 'b' | 12 => 'c' | 13 => 'd' | 14 => 'e' | 15 => 'f'
  | _ => '*'

/-- Decimal digits of a natural number, most significant first. -/
def natDigits (n : Nat) : List Char :=
  if n < 10 then [digitChar n] else natDigits (n / 10) ++ [digitChar (n % 10)]
termination_by n
decreasing_by exact Nat.div_lt_self (by omega) (by omega)

/-- Python's `repr` of an integer. -/
def intChars (n : Int) : List Char :=
  if n < 0 then '-' :: natDigits (-n).toNat else natDigits n.toNat

/-- Python `json`'s escaping of one character (`ensure_ascii=False`). -/
def escapeChar (c : Char) : List Char :=
  if c = '"' then ['\\', '"']
  else if c = '\\' then ['\\', '\\']
  else if c = '\n' then ['\\', 'n']
  else if c = '\r' then ['\\', 'r']
  else if c = '\t' then ['\\', 't']
  else if c = '\x08' then ['\\', 'b']
  else if c = '\x0c' then ['\\', 'f']
  else if c.toNat < 32 then
    ['\\', 'u', '0', '0', hexChar (c.toNat / 16), hexChar (c.toNat % 16)]
  else [c]

/-- Escape every character of a string body. -/
def escapeChars : List Char → List Char
  | [] => []
  | c :: cs => escapeChar c ++ escapeChars cs

/-- A JSON string literal: quote, escaped body, quote. -/
def strChars (s : String) : List Char :=
  '"' :: (escapeChars s.data ++ ['"'])

/-- The indentation for nesting depth `level` with `indent=2`. -/
def indentChars (level : Nat) : List Char :=
  List.replicate (2 * level) ' '

mutual

/-- Serialise a JSON value at nesting depth `level`, as `json.dump` with
`ensure_ascii=False, indent=2` does. -/
def renderValue : Value → Nat → List Char
  | .null, _ => ['n', 'u', 'l', 'l']
  | .bool true, _ => ['t', 'r', 'u', 'e']
  | .bool false, _ => ['f', 'a', 'l', 's', 'e']
  | .int n, _ => intChars n
  | .str s, _ => strChars s
  | .arr [], _ => ['[', ']']
  | .arr (v :: vs), level =>
    '[' :: '\n' :: (indentChars (level + 1) ++ renderValue v (level + 1) ++
      renderArrTail vs (level + 1) ++ '\n' :: indentChars level ++ [']'])
  | .obj [], _ => ['\x7b', '\x7d']
  | .obj ((k, v) :: kvs), level =>
    '\x7b' :: '\n' :: (indentChars (level + 1) ++ strChars k ++ ':' :: ' ' ::
      renderValue v (level + 1) ++ renderObjTail kvs (level + 1) ++
      '\n' :: indentChars level ++ ['\x7d'])

/-- The remaining array items, each preceded by `",\n" ++ indent`. -/
def renderArrTail : List Value → Nat → List Char
  | [], _ => []
  | v :: vs, level =>
    ',' :: '\n' :: (indentChars level ++ renderValue v level ++
      renderArrTail vs level)

/-- The remaining object members, each preceded by `",\n" ++ indent`. -/
def renderObjTail : List (String × Value) → Nat → List Char
  | [], _ => []
  | (k, v) :: kvs, level =>
    ',' :: '\n' :: (indentChars level ++ strChars k ++ ':' :: ' ' ::
      renderValue v level ++ renderObjTail kvs level)

end

/-- The exact bytes the script writes: the dumped bundle plus a final newline. -/
def encodeBundle (b : Bundle) : List Char :=
  renderValue (bundleValue b) 0 ++ ['\n']

/-- Drop leading JSON whitespace. -/
def skipWs : List Char → List Char
  | [] => []
  | c :: cs => if isWsChar c then skipWs cs else c :: cs

/-- The value of a hex digit character. -/
def hexVal (c : Char) : Option Nat :=
  if 48 ≤ c.toNat && c.toNat ≤ 57 then some (c.toNat - 48)
  else if 97 ≤ c.toNat && c.toNat ≤ 102 then some (c.toNat - 87)
  else if 65 ≤ c.toNat && c.toNat ≤ 70 then some (c.toNat - 55)
  else none

/-- The character named by a single-character JSON escape. -/
def unescapeChar (c : Char) : Option Char :=
  if c = '"' then some '"'
  else if c = '\\' then some '\\'
  else if c = '/' then some '/'
  else if c = 'n' then some '\n'
  else if c = 'r' then some '\r'
  else if c = 't' then some '\t'
  else if c = 'b' then some '\x08'
  else if c = 'f' then some '\x0c'
  else none

mutual

/-- Parse a JSON string body up to the closing quote, undoing escapes;
raw control characters are rejected (`json.loads` strict mode). -/
def parseStringChars : List Char → Option (List Char × List Char)
  | [] => none
  | c :: rest =>
    if c = '"' then some ([], rest)
    else if c = '\\' then parseEscape rest
    else if c.toNat < 32 then none
    else (parseStringChars rest).map fun p => (c :: p.1, p.2)

/-- Parse the remainder of an escape sequence (after the backslash). -/
def parseEscape : List Char → Option (List Char × List Char)
  | [] => none
  | e :: rest =>
    if e = 'u' then
      match rest with
      | h1 :: h2 :: h3 :: h4 :: rest2 =>
        match hexVal h1, hexVal h2, hexVal h3, hexVal h4 with
        | some a, some b, some c, some d =>
          (parseStringChars rest2).map fun p =>
            (Char.ofNat (4096 * a + 256 * b + 16 * c + d) :: p.1, p.2)
        | _, _, _, _ => none
      | _ => none
    else
      match unescapeChar e with
      | some c => (parseStringChars rest).map fun p => (c :: p.1, p.2)
      | none => none

end

/-- Take the maximal leading run of decimal digits. -/
def takeDigits : List Char → List Char × List Char
  | [] => ([], [])
  | c :: cs =>
    if isDigitChar c then
      ((takeDigits cs).1.cons c, (takeDigits cs).2)
    else ([], c :: cs)

/-- The numeric value of a digit character. -/
def digitVal (c : Char) : Nat := c.toNat - 48

/-- The number denoted by a digit run, most significant first. -/
def digitsToNat (ds : List Char) : Nat :=
  ds.foldl (fun acc c => 10 * acc + digitVal c) 0

/-- Parse a nonempty digit run into a natural number. -/
def parsePosInt (s : List Char) : Option (Nat × List Char) :=
  match takeDigits s with
  | ([], _) => none
  | (ds, rest) => some (digitsToNat ds, rest)

/-- Consume an exact keyword tail, yielding the given value. -/
def parseExact : List Char → List Char → Value → Option (Value × List Char)
  | cs, [], v => some (v, cs)
  | [], _ :: _, _ => none
  | c :: cs, e :: es, v => if c = e then parseExact cs es v else none

/-- Wrap a parsed natural number as a negative integer value. -/
def mkNegInt : Option (Nat × List Char) → Option (Value × List Char)
  | some p => some (.int (-(p.1 : Int)), p.2)
  | none => none

/-- Wrap a parsed natural number as a nonnegative integer value. -/
def mkPosInt : Option (Nat × List Char) → Option (Value × List Char)
  | some p => some (.int (p.1 : Int), p.2)
  | none => none

/-- Package a parsed member key and value. -/
def parseMemberValue (k : List Char) :
    Option (Value × List Char) → Option ((String × Value) × List Char)
  | some q => some ((String.mk k, q.1), q.2)
  | none => none

mutual

/-- Parse one JSON value (leading whitespace allowed), fuelled. -/
def parseValue : Nat → List Char → Option (Value × List Char)
  | 0, _ => none
  | fuel + 1, s =>
    match skipWs s with
    | [] => none
    | c :: cs => parseValueCore fuel c cs
termination_by fuel _ => (fuel, 0)

/-- Dispatch on the first significant character of a value. -/
def parseValueCore : Nat → Char → List Char → Option (Value × List Char)
  | fuel, c, cs =>
    if c = '"' then
      (parseStringChars cs).map fun p => (.str (String.mk p.1), p.2)
    else if c = '\x7b' then parseObj fuel cs
    else if c = '[' then parseArr fuel cs
    else if c = 't' then parseExact cs ['r', 'u', 'e'] (.bool true)
    else if c = 'f' then parseExact cs ['a', 'l', 's', 'e'] (.bool false)
    else if c = 'n' then parseExact cs ['u', 'l', 'l'] .null
    else if c = '-' then mkNegInt (parsePosInt cs)
    else if isDigitChar c then mkPosInt (parsePosInt (c :: cs))
    else none
termination_by fuel _ _ => (fuel, 10)

/-- Parse an array after its opening bracket. -/
def parseArr : Nat → List Char → Option (Value × List Char)
  | 0, _ => none
  | fuel + 1, s =>
    match skipWs s with
    | [] => none
    | c :: cs => parseArrCore fuel c cs
termination_by fuel _ => (fuel, 9)

/-- Dispatch for the first array item or an immediate close. -/
def parseArrCore : Nat → Char → List Char → Option (Value × List Char)
  | fuel, c, cs =>
    if c = ']' then some (.arr [], cs)
    else parseArrStep fuel (parseValue fuel (c :: cs))
termination_by fuel _ _ => (fuel, 8)

/-- Continue an array once its first item has been parsed. -/
def parseArrStep (fuel : Nat) :
    Option (Value × List Char) → Option (Value × List Char)
  | some p => parseArrRest fuel [p.1] p.2
  | none => none
termination_by _ => (fuel, 6)

/-- Parse the remaining array items after at least one element. -/
def parseArrRest : Nat → List Value → List Char → Option (Value × List Char)
  | 0, _, _ => none
  | fuel + 1, acc, s =>
    match skipWs s with
    | [] => none
    | c :: cs => parseArrRestCore fuel acc c cs
termination_by fuel _ _ => (fuel, 5)

/-- Dispatch after an array item: another item, or the close. -/
def parseArrRestCore : Nat → List Value → Char → List Char →
    Option (Value × List Char)
  | fuel, acc, c, cs =>
    if c = ',' then parseArrContinue fuel acc (parseValue fuel cs)
    else if c = ']' then some (.arr acc, cs)
    else none
termination_by fuel _ _ _ => (fuel, 7)

/-- Append a further parsed array item and keep going. -/
def parseArrContinue (fuel : Nat) (acc : List Value) :
    Option (Value × List Char) → Option (Value × List Char)
  | some p => parseArrRest fuel (acc ++ [p.1]) p.2
  | none => none
termination_by _ => (fuel, 6)

/-- Parse one `"key": value` member (leading whitespace allowed). -/
def parseMember : Nat → List Char → Option ((String × Value) × List Char)
  | 0, _ => none
  | fuel + 1, s =>
    match skipWs s with
    | [] => none
    | c :: cs => parseMemberCore fuel c cs
termination_by fuel _ => (fuel, 4)

/-- Dispatch for one object member, starting at its key quote. -/
def parseMemberCore : Nat → Char → List Char →
    Option ((String × Value) × List Char)
  | fuel, c, cs =>
    if c = '"' then parseMemberKeyed fuel (parseStringChars cs)
    else none
termination_by fuel _ _ => (fuel, 3)

/-- Continue a member once its key string has been parsed. -/
def parseMemberKeyed (fuel : Nat) :
    Option (List Char × List Char) → Option ((String × Value) × List Char)
  | some p => parseMemberColon fuel p.1 (skipWs p.2)
  | none => none
termination_by _ => (fuel, 2)

/-- After the key: expect a colon, then the member value. -/
def parseMemberColon (fuel : Nat) (k : List Char) :
    List Char → Option ((String × Value) × List Char)
  | [] => none
  | d :: rest2 =>
    if d = ':' then parseMemberValue k (parseValue fuel rest2)
    else none
termination_by _ => (fuel, 1)

/-- Parse an object after its opening brace. -/
def parseObj : Nat → List Char → Option (Value × List Char)
  | 0, _ => none
  | fuel + 1, s =>
    match skipWs s with
    | [] => none
    | c :: cs => parseObjCore fuel c cs
termination_by fuel _ => (fuel, 9)

/-- Dispatch for the first object member or an immediate close. -/
def parseObjCore : Nat → Char → List Char → Option (Value × List Char)
  | fuel, c, cs =>
    if c = '\x7d' then some (.obj [], cs)
    else parseObjStep fuel (parseMember fuel (c :: cs))
termination_by fuel _ _ => (fuel, 8)

/-- Continue an object once its first member has been parsed. -/
def parseObjStep (fuel : Nat) :
    Option ((String × Value) × List Char) → Option (Value × List Char)
  | some p => parseObjRest fuel [p.1] p.2
  | none => none
termination_by _ => (fuel, 6)

/-- Parse the remaining object members after at least one member. -/
def parseObjRest : Nat → List (String × Value) → List Char →
    Option (Value × List Char)
  | 0, _, _ => none
  | fuel + 1, acc, s =>
    match skipWs s with
    | [] => none
    | c :: cs => parseObjRestCore fuel acc c cs
termination_by fuel _ _ => (fuel, 5)

/-- Dispatch after an object member: another member, or the close. -/
def parseObjRestCore : Nat → List (String × Value) → Char → List Char →
    Option (Value × List Char)
  | fuel, acc, c, cs =>
    if c = ',' then parseObjContinue fuel acc (parseMember fuel cs)
    else if c = '\x7d' then some (.obj acc, cs)
    else none
termination_by fuel _ _ _ => (fuel, 7)

/-- Append a further parsed object member and keep going. -/
def parseObjContinue (fuel : Nat) (acc : List (String × Value)) :
    Option ((String × Value) × List Char) → Option (Value × List Char)
  | some p => parseObjRest fuel (acc ++ [p.1]) p.2
  | none => none
termination_by _ => (fuel, 6)

end

/-- Parse a whole document: one value, then only trailing whitespace. -/
def parseTop (s : List Char) : Option Value :=
  match parseValue (s.length + 1) s with
  | some (v, rest) => if skipWs rest = [] then some v else none
  | none => none

/-- The decoder's error taxonomy for bundles. -/
inductive ValidationError where
  | MissingField : ValidationError
  | Malformed : ValidationError

/--
Modelled from the spec: the consumer-side `BundleCodec.decode` (the Go
importer that reads these bundles) is not part of the exported script, so
it is modelled from the spec's contract — parse the JSON document, fail
with `Malformed` on structurally invalid input, fail with `MissingField`
when `api_id` or `api_hash` is absent/empty, and otherwise return the
bundle with unknown `metadata` keys preserved. Field names follow the
producer in this repository (`string_session` carries the session token).
-/
def decodeBundle (raw : List Char) : Except ValidationError Bundle :=
  match parseTop raw with
  | none => .error .Malformed
  | some v =>
    match objGet v "name", objGet v "pool", objGet v "string_session",
        objGet v "metadata" with
    | some (.str nm), some (.str pl), some (.str ss), some (.obj md) =>
      let api_id := (objGet v "api_id").getD .null
      let api_hash := (objGet v "api_hash").getD .null
      if api_id.truthy && api_hash.truthy then
        .ok
          { name := nm, pool := pl, api_id := api_id, api_hash := api_hash,
            phone := (objGet v "phone").getD .null,
            username := (objGet v "username").getD .null,
            string_session := ss, metadata := md }
      else .error .MissingField
    | _, _, _, _ => .error .Malformed

mutual

/-- Fuel sufficient to parse a value, derived from its structure. -/
def fuelNeed : Value → Nat
  | .null => 1
  | .bool _ => 1
  | .int _ => 1
  | .str _ => 1
  | .arr elems => fuelNeedList elems + 2
  | .obj members => fuelNeedMembers members + 2

/-- Fuel sufficient for a list of array elements. -/
def fuelNeedList : List Value → Nat
  | [] => 0
  | v :: vs => fuelNeed v + 1 + fuelNeedList vs

/-- Fuel sufficient for a list of object members. -/
def fuelNeedMembers : List (String × Value) → Nat
  | [] => 0
  | (_, v) :: kvs => fuelNeed v + 2 + fuelNeedMembers kvs

end

/-- Does the input not start with a digit (so a number parse stops before it)? -/
def noDigitHead : List Char → Bool
  | [] => true
  | c :: _ => !isDigitChar c

/-- Inversion: a successful export determines every field of the bundle. -/
theorem exportBundle_ok_elim {args : Args} {metadata : Meta} {stem sess : String}
    {b : Bundle} (h : exportBundle args metadata stem sess = Except.ok b) :
    b = { name := if pyStrip args.name ≠ "" then pyStrip args.name
            else detect_name metadata stem
          pool := if pyStrip args.pool ≠ "" then pyStrip args.pool else "default"
          api_id := effApiId args metadata
          api_hash := effApiHash args metadata
          phone := (metaGet metadata "phone").getD .null
          username := (metaGet metadata "username").getD .null
          string_session := sess
          metadata := metadata } := by
  simp only [exportBundle] at h
  split at h
  · exact Except.noConfusion h
  · injection h with h
    exact h.symm

/-! ## Claim theorems -/

/--
C1 (amended): the export succeeds exactly when the effective `api_id` and
`api_hash` — override first, else the metadata field — are Python-truthy;
any falsy effective value (absent, `null`, `0`, `false`, empty string or
container) aborts with the validation error and no bundle, and an absent
value is never replaced by a default.
-/
theorem C1_validation_truthiness (args : Args) (metadata : Meta)
    (stem sess : String) :
    ((∃ b, exportBundle args metadata stem sess = Except.ok b) ↔
      (effApiId args metadata).truthy = true ∧
        (effApiHash args metadata).truthy = true) ∧
    (args.api_id = none → metaGet metadata "app_id" = none →
      exportBundle args metadata stem sess = Except.error exportErrMsg) := by
  constructor
  · cases hid : (effApiId args metadata).truthy <;>
      cases hh : (effApiHash args metadata).truthy <;>
        simp [exportBundle, hid, hh]
  · intro h1 h2
    have hnull : effApiId args metadata = .null := by
      simp [effApiId, h1, h2]
    simp [exportBundle, hnull, Value.truthy]

/-- C1 witness: a concrete run where both credentials are truthy succeeds. -/
theorem C1_validation_truthiness_witness :
    ∃ b, exportBundle {} [("app_id", Value.int 7), ("app_hash", Value.str "h")]
      "acct" "tok" = Except.ok b :=
  (C1_validation_truthiness {} [("app_id", Value.int 7), ("app_hash", Value.str "h")]
    "acct" "tok").1.mpr ⟨rfl, rfl⟩

/--
C1 counterexample: with the override `--api-id 0` the effective `api_id` is
present and is neither `null` nor an empty string, yet validation fails —
so "present and non-empty implies validation passes" is false as stated.
-/
theorem C1_claim_counterexample :
    exportBundle { api_id := some 0, api_hash := some "h" } [] "acct" "tok" =
      Except.error exportErrMsg ∧
    effApiId { api_id := some 0, api_hash := some "h" } [] ≠ Value.null ∧
    effApiId { api_id := some 0, api_hash := some "h" } [] ≠ Value.str "" ∧
    effApiHash { api_id := some 0, api_hash := some "h" } [] = Value.str "h" :=
  ⟨rfl, fun h => Value.noConfusion h, fun h => Value.noConfusion h, rfl⟩

/--
C2 (amended): every emitted bundle object carries the serialised session
under the key `string_session` — not `authorization_token` — alongside
`name`, `pool`, `api_id` and `api_hash`.
-/
theorem C2_bundle_fields (args : Args) (metadata : Meta) (stem sess : String)
    (b : Bundle) (h : exportBundle args metadata stem sess = Except.ok b) :
    objGet (bundleValue b) "string_session" = some (Value.str sess) ∧
    "name" ∈ objKeys (bundleValue b) ∧
    "pool" ∈ objKeys (bundleValue b) ∧
    "api_id" ∈ objKeys (bundleValue b) ∧
    "api_hash" ∈ objKeys (bundleValue b) ∧
    "authorization_token" ∉ objKeys (bundleValue b) := by
  have hb := exportBundle_ok_elim h
  subst hb
  have hkeys : ∀ b : Bundle, objKeys (bundleValue b) =
      ["name", "pool", "api_id", "api_hash", "phone", "username",
        "string_session", "metadata"] := fun _ => rfl
  rw [hkeys]
  exact ⟨rfl, by decide, by decide, by decide, by decide, by decide⟩

/-- C2 witness: the field layout at a concrete successful run. -/
theorem C2_bundle_fields_witness :
    objGet
      (bundleValue
        { name := "acct", pool := "default", api_id := Value.int 7,
          api_hash := Value.str "h", phone := Value.null,
          username := Value.null, string_session := "tok",
          metadata := [("app_id", Value.int 7), ("app_hash", Value.str "h")] })
      "string_session" = some (Value.str "tok") :=
  (C2_bundle_fields {} [("app_id", Value.int 7), ("app_hash", Value.str "h")]
    "acct" "tok" _ rfl).1

/--
C2 counterexample: a concrete successful run emits exactly the keys
`name, pool, api_id, api_hash, phone, username, string_session, metadata`;
no emitted field is named `authorization_token`.
-/
theorem C2_claim_counterexample :
    (exportBundle {} [("app_id", Value.int 7), ("app_hash", Value.str "h")]
        "acct" "tok").toOption.map (fun b => objKeys (bundleValue b)) =
      some ["name", "pool", "api_id", "api_hash", "phone", "username",
        "string_session", "metadata"] ∧
    "authorization_token" ∉
      ["name", "pool", "api_id", "api_hash", "phone", "username",
        "string_session", "metadata"] :=
  ⟨rfl, by decide⟩

/-- `detect_name`'s loop is the first-hit of the filtered candidate list. -/
theorem detectLoop_eq_filterMap (meta : Meta) (keys : List String) (stem : String) :
    detect_name.detectLoop meta keys stem =
      ((keys.filterMap fun key =>
        match metaGet meta key with
        | some (.str value) =>
          if pyStrip value = "" then none else some (pyStrip value)
        | _ => none).head?).getD stem := by
  induction keys with
  | nil => rfl
  | cons key keys ih =>
    simp only [detect_name.detectLoop, List.filterMap_cons]
    cases hv : metaGet meta key with
    | none => simpa using ih
    | some v =>
      cases v with
      | str s =>
        by_cases hs : pyStrip s = ""
        · simpa [hs] using ih
        · simp [hs]
      | null => simpa using ih
      | bool b => simpa using ih
      | int n => simpa using ih
      | arr elems => simpa using ih
      | obj members => simpa using ih

/-- The export succeeds with this exact bundle when both credentials are truthy. -/
theorem exportBundle_eq_ok (args : Args) (metadata : Meta) (stem sess : String)
    (hid : (effApiId args metadata).truthy = true)
    (hhash : (effApiHash args metadata).truthy = true) :
    exportBundle args metadata stem sess = Except.ok
      { name := if pyStrip args.name ≠ "" then pyStrip args.name
          else detect_name metadata stem
        pool := if pyStrip args.pool ≠ "" then pyStrip args.pool else "default"
        api_id := effApiId args metadata
        api_hash := effApiHash args metadata
        phone := (metaGet metadata "phone").getD .null
        username := (metaGet metadata "username").getD .null
        string_session := sess
        metadata := metadata } := by
  simp [exportBundle, hid, hhash]

/--
C3 (amended): with no (or whitespace-only) `--name`, the resolved account
name is the first candidate among the metadata fields `name`,
`session_file`, `phone`, `username` whose value is a string containing a
non-whitespace character, with surrounding whitespace stripped; if no field
qualifies, the session-file stem is used.
-/
theorem C3_name_resolution :
    (∀ (meta : Meta) (stem : String),
      detect_name meta stem = detectNameSpec meta stem) ∧
    (∀ (args : Args) (metadata : Meta) (stem sess : String) (b : Bundle),
      pyStrip args.name = "" →
      exportBundle args metadata stem sess = Except.ok b →
      b.name = detectNameSpec metadata stem) := by
  have hloop : ∀ (meta : Meta) (stem : String),
      detect_name meta stem = detectNameSpec meta stem := by
    intro meta stem
    rw [detect_name, detectNameSpec]
    exact detectLoop_eq_filterMap meta _ stem
  refine ⟨hloop, ?_⟩
  intro args metadata stem sess b hname h
  rw [exportBundle_ok_elim h]
  simp [hname, hloop]

/-- C3 witness: concrete resolutions through `detect_name` and through a run. -/
theorem C3_name_resolution_witness :
    detect_name [("phone", Value.str " 123 ")] "fb" =
      detectNameSpec [("phone", Value.str " 123 ")] "fb" ∧
    detectNameSpec [("phone", Value.str " 123 ")] "fb" = "123" :=
  ⟨C3_name_resolution.1 [("phone", Value.str " 123 ")] "fb", by decide⟩

/--
C3 counterexample: with metadata `{"name": " ", "session_file": "x"}`, the
field `name` holds a non-empty string, yet the resolved name is `"x"`, not
`" "` (whitespace-only strings are skipped); and `{"name": " bob "}`
resolves to the stripped `"bob"`, not to the field value `" bob "`.
-/
theorem C3_claim_counterexample :
    detect_name [("name", Value.str " "), ("session_file", Value.str "x")] "fb"
        = "x" ∧
    ("x" : String) ≠ " " ∧
    detect_name [("name", Value.str " bob ")] "fb" = "bob" ∧
    ("bob" : String) ≠ " bob " :=
  ⟨by decide, by decide, by decide, by decide⟩

/--
C4 (amended): when the metadata lacks `app_hash` (resp. `app_id`), a
non-empty (resp. non-zero) caller override for that field restores
validity, provided the other effective credential is truthy: the export
succeeds, the override takes precedence, and it lands in the emitted
bundle.
-/
theorem C4_override_restores_validity :
    (∀ (args : Args) (metadata : Meta) (stem sess hash : String),
      metaGet metadata "app_hash" = none → args.api_hash = some hash →
      hash ≠ "" → (effApiId args metadata).truthy = true →
      ∃ b, exportBundle args metadata stem sess = Except.ok b ∧
        b.api_hash = Value.str hash ∧
        objGet (bundleValue b) "api_hash" = some (Value.str hash)) ∧
    (∀ (args : Args) (metadata : Meta) (stem sess : String) (n : Int),
      metaGet metadata "app_id" = none → args.api_id = some n →
      n ≠ 0 → (effApiHash args metadata).truthy = true →
      ∃ b, exportBundle args metadata stem sess = Except.ok b ∧
        b.api_id = Value.int n ∧
        objGet (bundleValue b) "api_id" = some (Value.int n)) := by
  constructor
  · intro args metadata stem sess hash _ hov hne hid
    have hhash : effApiHash args metadata = Value.str hash := by
      simp [effApiHash, hov]
    have htr : (effApiHash args metadata).truthy = true := by
      rw [hhash]
      have he : hash.isEmpty = false := by
        cases he : hash.isEmpty with
        | false => rfl
        | true => exact absurd ((String.isEmpty_iff hash).mp he) hne
      simp [Value.truthy, he]
    refine ⟨_, exportBundle_eq_ok args metadata stem sess hid htr, hhash, ?_⟩
    show some (effApiHash args metadata) = some (Value.str hash)
    rw [hhash]
  · intro args metadata stem sess n _ hov hne htr
    have hn : effApiId args metadata = Value.int n := by
      simp [effApiId, hov]
    have hid : (effApiId args metadata).truthy = true := by
      rw [hn]
      simpa [Value.truthy] using hne
    refine ⟨_, exportBundle_eq_ok args metadata stem sess hid htr, hn, ?_⟩
    show some (effApiId args metadata) = some (Value.int n)
    rw [hn]

/-- C4 witness: overriding the missing `app_hash` on a concrete run. -/
theorem C4_override_restores_validity_witness :
    ∃ b, exportBundle { api_hash := some "h" } [("app_id", Value.int 7)]
        "acct" "tok" = Except.ok b ∧
      b.api_hash = Value.str "h" ∧
      objGet (bundleValue b) "api_hash" = some (Value.str "h") :=
  C4_override_restores_validity.1 { api_hash := some "h" }
    [("app_id", Value.int 7)] "acct" "tok" "h" rfl rfl (by decide) rfl

/--
C4 counterexample: the metadata lacks `app_hash` and a caller override for
`api_hash` is supplied (the empty string), yet the export still fails — an
override does not restore validity unconditionally.
-/
theorem C4_claim_counterexample :
    metaGet [("app_id", Value.int 7)] "app_hash" = none ∧
    exportBundle { api_hash := some "" } [("app_id", Value.int 7)] "acct" "tok"
      = Except.error exportErrMsg :=
  ⟨rfl, rfl⟩

/--
C5 (amended): the emitted bundle's `pool` field is the supplied tag with
surrounding whitespace stripped, or `"default"` when the stripped tag is
empty (no tag supplied, or empty/whitespace-only).
-/
theorem C5_pool_strip (args : Args) (metadata : Meta) (stem sess : String)
    (b : Bundle) (h : exportBundle args metadata stem sess = Except.ok b) :
    b.pool = if pyStrip args.pool = "" then "default" else pyStrip args.pool := by
  rw [exportBundle_ok_elim h]
  by_cases hc : pyStrip args.pool = "" <;> simp [hc]

/-- C5 witness: a whitespace-only `--pool` on a concrete run gives `"default"`. -/
theorem C5_pool_strip_witness :
    ∃ b, exportBundle { pool := "  " }
        [("app_id", Value.int 7), ("app_hash", Value.str "h")] "s" "t" =
      Except.ok b ∧ b.pool = "default" := by
  refine ⟨_, rfl, (C5_pool_strip { pool := "  " }
    [("app_id", Value.int 7), ("app_hash", Value.str "h")] "s" "t" _ rfl).trans ?_⟩
  decide

/--
C5 counterexample: with `--pool " prod "` the emitted pool is the stripped
`"prod"`, not the supplied tag `" prod "`.
-/
theorem C5_claim_counterexample :
    (exportBundle { pool := " prod " }
        [("app_id", Value.int 7), ("app_hash", Value.str "h")] "s" "t").toOption.map
      Bundle.pool = some "prod" ∧
    ("prod" : String) ≠ " prod " :=
  ⟨rfl, by decide⟩

/--
C6 (confirmed): every successful run embeds the decoded input metadata in
the bundle exactly as it was read — every key, known or unknown to the
tool, with its value unchanged; nothing is added, removed or rewritten.
-/
theorem C6_metadata_passthrough (args : Args) (metadata : Meta)
    (stem sess : String) (b : Bundle)
    (h : exportBundle args metadata stem sess = Except.ok b) :
    b.metadata = metadata ∧
    objGet (bundleValue b) "metadata" = some (Value.obj metadata) := by
  have hb := exportBundle_ok_elim h
  subst hb
  exact ⟨rfl, rfl⟩

/-- C6 witness: pass-through of an unknown metadata key on a concrete run. -/
theorem C6_metadata_passthrough_witness :
    ({ name := "s", pool := "default", api_id := Value.int 7,
       api_hash := Value.str "h", phone := Value.null, username := Value.null,
       string_session := "t",
       metadata := [("app_id", Value.int 7), ("app_hash", Value.str "h"),
         ("unknown_key", Value.arr [Value.int 1, Value.null])] } : Bundle).metadata =
      [("app_id", Value.int 7), ("app_hash", Value.str "h"),
       ("unknown_key", Value.arr [Value.int 1, Value.null])] :=
  (C6_metadata_passthrough {}
    [("app_id", Value.int 7), ("app_hash", Value.str "h"),
     ("unknown_key", Value.arr [Value.int 1, Value.null])] "s" "t" _ rfl).1

/--
C8 (amended): a failing run is never silently swallowed — the process exit
status is nonzero and stderr carries the underlying cause; but the
surfaced validation error is the fixed message `exportErrMsg`, which names
the missing credential fields only and contains neither the account name
nor the pool tag.
-/
theorem C8_error_surfaced (args : Args) (metadata : Meta) (stem sess msg : String)
    (h : exportBundle args metadata stem sess = Except.error msg) :
    runExitCode args metadata stem sess = 1 ∧
    runStderr args metadata stem sess = [msg] ∧
    msg = exportErrMsg := by
  refine ⟨?_, ?_, ?_⟩
  · unfold runExitCode
    rw [h]
  · unfold runStderr
    rw [h]
  · simp only [exportBundle] at h
    split at h
    · injection h with h
      exact h.symm
    · exact Except.noConfusion h

/-- C8 witness: a concrete failing run (no credentials anywhere). -/
theorem C8_error_surfaced_witness :
    runExitCode { pool := "poolX" } [("name", Value.str "acctX")] "s" "t" = 1 ∧
    runStderr { pool := "poolX" } [("name", Value.str "acctX")] "s" "t" =
      [exportErrMsg] ∧
    exportErrMsg = exportErrMsg :=
  C8_error_surfaced { pool := "poolX" } [("name", Value.str "acctX")] "s" "t"
    exportErrMsg rfl

/--
C8 counterexample: a failing run with pool tag `"poolX"` and metadata name
`"acctX"` surfaces only the fixed validation message, which contains
neither `"poolX"` nor `"acctX"` — the surfaced error does not carry the
account name or pool tag.
-/
theorem C8_claim_counterexample :
    exportBundle { pool := "poolX" } [("name", Value.str "acctX")] "s" "t" =
      Except.error exportErrMsg ∧
    containsChars exportErrMsg.data "poolX".data = false ∧
    containsChars exportErrMsg.data "acctX".data = false :=
  ⟨rfl, by decide, by decide⟩

/--
C10 (confirmed): on every successful run the whole input metadata map is
embedded verbatim; with no `--api-hash` override the top-level `api_hash`
is exactly the metadata's `app_hash` value — so when the metadata carries
`app_hash` (the usual case) the secret appears twice in the output, once
top-level and once inside `metadata` — and the top-level `phone` and
`username` are copies of the metadata entries, `null` when absent.
-/
theorem C10_secret_duplication (args : Args) (metadata : Meta)
    (stem sess : String) (b : Bundle)
    (hover : args.api_hash = none)
    (h : exportBundle args metadata stem sess = Except.ok b) :
    b.metadata = metadata ∧
    b.api_hash = (metaGet metadata "app_hash").getD .null ∧
    (∀ v, metaGet metadata "app_hash" = some v →
      objGet (bundleValue b) "api_hash" = some v ∧
      metaGet b.metadata "app_hash" = some v) ∧
    b.phone = (metaGet metadata "phone").getD .null ∧
    b.username = (metaGet metadata "username").getD .null := by
  have hb := exportBundle_ok_elim h
  subst hb
  refine ⟨rfl, by simp [effApiHash, hover], ?_, rfl, rfl⟩
  intro v hv
  constructor
  · show some (effApiHash args metadata) = some v
    simp [effApiHash, hover, hv]
  · exact hv

/-- C10 witness: the secret `app_hash` appears twice on a concrete run. -/
theorem C10_secret_duplication_witness :
    objGet
        (bundleValue
          { name := "s", pool := "default", api_id := Value.int 7,
            api_hash := Value.str "SECRET", phone := Value.null,
            username := Value.null, string_session := "t",
            metadata := [("app_id", Value.int 7), ("app_hash", Value.str "SECRET")] })
        "api_hash" = some (Value.str "SECRET") ∧
    metaGet
        ({ name := "s", pool := "default", api_id := Value.int 7
           , api_hash := Value.str "SECRET", phone := Value.null
           , username := Value.null, string_session := "t"
           , metadata := [("app_id", Value.int 7), ("app_hash", Value.str "SECRET")] } :
            Bundle).metadata
        "app_hash" = some (Value.str "SECRET") :=
  (C10_secret_duplication {} [("app_id", Value.int 7), ("app_hash", Value.str "SECRET")]
    "s" "t" _ rfl rfl).2.2.1 _ rfl

/-! ## Codec lemmas -/

theorem skipWs_cons_ws {c : Char} (h : isWsChar c = true) (s : List Char) :
    skipWs (c :: s) = skipWs s := by
  simp [skipWs, h]

theorem skipWs_cons_not {c : Char} (h : isWsChar c = false) (s : List Char) :
    skipWs (c :: s) = c :: s := by
  simp [skipWs, h]

theorem skipWs_append {ws : List Char} (h : ∀ c ∈ ws, isWsChar c = true)
    (s : List Char) : skipWs (ws ++ s) = skipWs s := by
  induction ws with
  | nil => rfl
  | cons c cs ih =>
    rw [List.cons_append, skipWs_cons_ws (h c (by simp))]
    exact ih fun d hd => h d (by simp [hd])

theorem indentChars_ws {level : Nat} : ∀ c ∈ indentChars level, isWsChar c = true := by
  intro c hc
  rw [indentChars, List.mem_replicate] at hc
  rw [hc.2]
  decide

theorem digitVal_digitChar {n : Nat} (h : n < 10) : digitVal (digitChar n) = n := by
  interval_cases n <;> decide

theorem isDigit_digitChar {n : Nat} (h : n < 10) : isDigitChar (digitChar n) = true := by
  interval_cases n <;> decide

theorem natDigits_lt {n : Nat} (h : n < 10) : natDigits n = [digitChar n] := by
  rw [natDigits]
  simp [h]

theorem natDigits_ge {n : Nat} (h : ¬ n < 10) :
    natDigits n = natDigits (n / 10) ++ [digitChar (n % 10)] := by
  rw [natDigits]
  simp [h]

theorem natDigits_ne_nil (n : Nat) : natDigits n ≠ [] := by
  by_cases h : n < 10
  · rw [natDigits_lt h]
    simp
  · rw [natDigits_ge h]
    simp

theorem natDigits_digits (n : Nat) : ∀ c ∈ natDigits n, isDigitChar c = true := by
  induction n using Nat.strong_induction_on with
  | _ n ih =>
    by_cases h : n < 10
    · rw [natDigits_lt h]
      intro c hc
      rw [List.mem_singleton] at hc
      rw [hc]
      exact isDigit_digitChar h
    · rw [natDigits_ge h]
      intro c hc
      rw [List.mem_append] at hc
      rcases hc with hc | hc
      · exact ih (n / 10) (Nat.div_lt_self (by omega) (by omega)) c hc
      · rw [List.mem_singleton] at hc
        rw [hc]
        exact isDigit_digitChar (Nat.mod_lt _ (by omega))

theorem takeDigits_not {s : List Char} (h : noDigitHead s = true) :
    takeDigits s = ([], s) := by
  cases s with
  | nil => rfl
  | cons c cs =>
    have hc : isDigitChar c = false := by
      simpa [noDigitHead] using h
    simp [takeDigits, hc]

theorem takeDigits_append {ds rest : List Char}
    (hds : ∀ c ∈ ds, isDigitChar c = true) (hrest : noDigitHead rest = true) :
    takeDigits (ds ++ rest) = (ds, rest) := by
  induction ds with
  | nil => exact takeDigits_not hrest
  | cons c cs ih =>
    have hc : isDigitChar c = true := hds c (by simp)
    have ih' := ih fun d hd => hds d (by simp [hd])
    simp [takeDigits, hc, ih']

theorem digitsToNat_append_singleton (ds : List Char) (d : Char) :
    digitsToNat (ds ++ [d]) = 10 * digitsToNat ds + digitVal d := by
  simp [digitsToNat, List.foldl_append]

theorem digitsToNat_natDigits (n : Nat) : digitsToNat (natDigits n) = n := by
  induction n using Nat.strong_induction_on with
  | _ n ih =>
    by_cases h : n < 10
    · rw [natDigits_lt h]
      show 10 * 0 + digitVal (digitChar n) = n
      rw [digitVal_digitChar h]
      omega
    · rw [natDigits_ge h, digitsToNat_append_singleton,
        ih (n / 10) (Nat.div_lt_self (by omega) (by omega)),
        digitVal_digitChar (Nat.mod_lt _ (by omega))]
      omega

theorem parsePosInt_spec (n : Nat) {rest : List Char}
    (h : noDigitHead rest = true) :
    parsePosInt (natDigits n ++ rest) = some (n, rest) := by
  obtain ⟨d, ds, hshape⟩ : ∃ d ds, natDigits n = d :: ds := by
    cases h' : natDigits n with
    | nil => exact absurd h' (natDigits_ne_nil n)
    | cons d ds => exact ⟨d, ds, rfl⟩
  rw [parsePosInt, takeDigits_append (natDigits_digits n) h, hshape]
  show some (digitsToNat (d :: ds), rest) = some (n, rest)
  rw [← hshape, digitsToNat_natDigits]

theorem isDigit_bounds {c : Char} (h : isDigitChar c = true) :
    48 ≤ c.toNat ∧ c.toNat ≤ 57 := by
  simpa [isDigitChar] using h

theorem digit_not_ws {c : Char} (h : isDigitChar c = true) : isWsChar c = false := by
  obtain ⟨h1, h2⟩ := isDigit_bounds h
  simp only [isWsChar, Bool.or_eq_false_iff]
  refine ⟨⟨⟨?_, ?_⟩, ?_⟩, ?_⟩ <;> · rw [beq_eq_false_iff_ne]; omega

theorem digit_ne {c : Char} (h : isDigitChar c = true) (d : Char)
    (hd : d.toNat < 48 ∨ 57 < d.toNat) : c ≠ d := by
  obtain ⟨h1, h2⟩ := isDigit_bounds h
  intro he
  subst he
  omega

theorem hexVal_hexChar {n : Nat} (h : n < 16) : hexVal (hexChar n) = some n := by
  interval_cases n <;> decide

theorem string_mk_data (s : String) : String.mk s.data = s := by
  cases s
  rfl

theorem parse_escapeChars (l : List Char) (rest : List Char) :
    parseStringChars (escapeChars l ++ '"' :: rest) = some (l, rest) := by
  induction l with
  | nil =>
    show parseStringChars ('"' :: rest) = some ([], rest)
    simp [parseStringChars]
  | cons c cs ih =>
    show parseStringChars ((escapeChar c ++ escapeChars cs) ++ '"' :: rest) =
      some (c :: cs, rest)
    rw [List.append_assoc]
    by_cases h1 : c = '"'
    · subst h1
      simp [escapeChar, parseStringChars, parseEscape, unescapeChar, ih]
    by_cases h2 : c = '\\'
    · subst h2
      simp [escapeChar, parseStringChars, parseEscape, unescapeChar, ih]
    by_cases h3 : c = '\n'
    · subst h3
      simp [escapeChar, parseStringChars, parseEscape, unescapeChar, ih]
    by_cases h4 : c = '\r'
    · subst h4
      simp [escapeChar, parseStringChars, parseEscape, unescapeChar, ih]
    by_cases h5 : c = '\t'
    · subst h5
      simp [escapeChar, parseStringChars, parseEscape, unescapeChar, ih]
    by_cases h6 : c = '\x08'
    · subst h6
      simp [escapeChar, parseStringChars, parseEscape, unescapeChar, ih]
    by_cases h7 : c = '\x0c'
    · subst h7
      simp [escapeChar, parseStringChars, parseEscape, unescapeChar, ih]
    by_cases h8 : c.toNat < 32
    · have hesc : escapeChar c =
          ['\\', 'u', '0', '0', hexChar (c.toNat / 16), hexChar (c.toNat % 16)] := by
        simp [escapeChar, h1, h2, h3, h4, h5, h6, h7, h8]
      rw [hesc]
      show parseStringChars ('\\' :: 'u' :: '0' :: '0' :: hexChar (c.toNat / 16) ::
        hexChar (c.toNat % 16) :: (escapeChars cs ++ '"' :: rest)) = some (c :: cs, rest)
      rw [parseStringChars]
      rw [if_neg (by decide), if_pos rfl]
      rw [parseEscape, if_pos rfl]
      have hv0 : hexVal '0' = some 0 := by decide
      have hv1 : hexVal (hexChar (c.toNat / 16)) = some (c.toNat / 16) :=
        hexVal_hexChar (by omega)
      have hv2 : hexVal (hexChar (c.toNat % 16)) = some (c.toNat % 16) :=
        hexVal_hexChar (by omega)
      rw [hv0, hv1, hv2]
      show (parseStringChars (escapeChars cs ++ '"' :: rest)).map _ = _
      rw [ih]
      show some (Char.ofNat (4096 * 0 + 256 * 0 + 16 * (c.toNat / 16) + c.toNat % 16)
        :: cs, rest) = some (c :: cs, rest)
      have : 4096 * 0 + 256 * 0 + 16 * (c.toNat / 16) + c.toNat % 16 = c.toNat := by
        omega
      rw [this, Char.ofNat_toNat]
    · have hesc : escapeChar c = [c] := by
        simp [escapeChar, h1, h2, h3, h4, h5, h6, h7, h8]
      rw [hesc]
      show parseStringChars (c :: (escapeChars cs ++ '"' :: rest)) = some (c :: cs, rest)
      rw [parseStringChars, if_neg h1, if_neg h2, if_neg (by omega), ih]
      rfl

theorem parseValue_ws {ws : List Char} (h : ∀ c ∈ ws, isWsChar c = true)
    (fuel : Nat) (s : List Char) : parseValue fuel (ws ++ s) = parseValue fuel s := by
  cases fuel with
  | zero => simp only [parseValue]
  | succ f =>
    simp only [parseValue, parseArr, parseArrRest, parseObj, parseObjRest]
    rw [skipWs_append h]

theorem parseMember_ws {ws : List Char} (h : ∀ c ∈ ws, isWsChar c = true)
    (fuel : Nat) (s : List Char) : parseMember fuel (ws ++ s) = parseMember fuel s := by
  cases fuel with
  | zero => simp only [parseMember]
  | succ f =>
    simp only [parseMember]
    rw [skipWs_append h]

theorem parseArrRest_ws {ws : List Char} (h : ∀ c ∈ ws, isWsChar c = true)
    (fuel : Nat) (acc : List Value) (s : List Char) :
    parseArrRest fuel acc (ws ++ s) = parseArrRest fuel acc s := by
  cases fuel with
  | zero => simp only [parseArrRest]
  | succ f =>
    simp only [parseValue, parseArr, parseArrRest, parseObj, parseObjRest]
    rw [skipWs_append h]

theorem parseObjRest_ws {ws : List Char} (h : ∀ c ∈ ws, isWsChar c = true)
    (fuel : Nat) (acc : List (String × Value)) (s : List Char) :
    parseObjRest fuel acc (ws ++ s) = parseObjRest fuel acc s := by
  cases fuel with
  | zero => simp only [parseObjRest]
  | succ f =>
    simp only [parseValue, parseArr, parseArrRest, parseObj, parseObjRest]
    rw [skipWs_append h]

theorem parseArr_ws {ws : List Char} (h : ∀ c ∈ ws, isWsChar c = true)
    (fuel : Nat) (s : List Char) : parseArr fuel (ws ++ s) = parseArr fuel s := by
  cases fuel with
  | zero => simp only [parseArr]
  | succ f =>
    simp only [parseValue, parseArr, parseArrRest, parseObj, parseObjRest]
    rw [skipWs_append h]

theorem parseObj_ws {ws : List Char} (h : ∀ c ∈ ws, isWsChar c = true)
    (fuel : Nat) (s : List Char) : parseObj fuel (ws ++ s) = parseObj fuel s := by
  cases fuel with
  | zero => simp only [parseObj]
  | succ f =>
    simp only [parseValue, parseArr, parseArrRest, parseObj, parseObjRest]
    rw [skipWs_append h]

theorem renderValue_head (v : Value) (level : Nat) :
    ∃ c cs, renderValue v level = c :: cs ∧ isWsChar c = false ∧ c ≠ ']' := by
  cases v with
  | null => exact ⟨'n', _, rfl, by decide, by decide⟩
  | bool b =>
    cases b with
    | true => exact ⟨'t', _, rfl, by decide, by decide⟩
    | false => exact ⟨'f', _, rfl, by decide, by decide⟩
  | int n =>
    show ∃ c cs, intChars n = c :: cs ∧ _
    rw [intChars]
    by_cases hn : n < 0
    · rw [if_pos hn]
      exact ⟨'-', _, rfl, by decide, by decide⟩
    · rw [if_neg hn]
      obtain ⟨d, ds, hshape⟩ : ∃ d ds, natDigits n.toNat = d :: ds := by
        cases h' : natDigits n.toNat with
        | nil => exact absurd h' (natDigits_ne_nil _)
        | cons d ds => exact ⟨d, ds, rfl⟩
      have hd : isDigitChar d = true := natDigits_digits _ d (by rw [hshape]; simp)
      exact ⟨d, ds, hshape, digit_not_ws hd, digit_ne hd ']' (by decide)⟩
  | str s => exact ⟨'"', _, rfl, by decide, by decide⟩
  | arr elems =>
    cases elems with
    | nil => exact ⟨'[', _, rfl, by decide, by decide⟩
    | cons v vs => exact ⟨'[', _, rfl, by decide, by decide⟩
  | obj members =>
    cases members with
    | nil => exact ⟨'\x7b', _, rfl, by decide, by decide⟩
    | cons kv kvs =>
      obtain ⟨k, v⟩ := kv
      exact ⟨'\x7b', _, rfl, by decide, by decide⟩

theorem fuelNeed_pos (v : Value) : 1 ≤ fuelNeed v := by
  cases v <;> simp [fuelNeed]

theorem noDigit_arrTail (vs : List Value) (ilevel : Nat) (X : List Char) :
    noDigitHead (renderArrTail vs ilevel ++ '\n' :: X) = true := by
  cases vs with
  | nil => rfl
  | cons v vs' =>
    simp only [renderArrTail, List.cons_append]
    rfl

theorem noDigit_objTail (kvs : List (String × Value)) (ilevel : Nat)
    (X : List Char) :
    noDigitHead (renderObjTail kvs ilevel ++ '\n' :: X) = true := by
  cases kvs with
  | nil => rfl
  | cons kv kvs' =>
    obtain ⟨k, v⟩ := kv
    simp only [renderObjTail, List.cons_append]
    rfl

theorem nlIndent_ws (l : Nat) : ∀ c ∈ '\n' :: indentChars l, isWsChar c = true := by
  intro c hc
  rcases List.mem_cons.mp hc with h | h
  · rw [h]
    decide
  · exact indentChars_ws c h

set_option maxHeartbeats 1000000 in
theorem parser_complete (fuel : Nat) :
    (∀ (v : Value) (level : Nat) (rest : List Char),
      fuelNeed v ≤ fuel → noDigitHead rest = true →
      parseValue fuel (renderValue v level ++ rest) = some (v, rest)) ∧
    (∀ (vs : List Value) (acc : List Value) (ilevel clevel : Nat)
      (rest : List Char),
      1 + fuelNeedList vs ≤ fuel →
      parseArrRest fuel acc
        (renderArrTail vs ilevel ++ '\n' :: (indentChars clevel ++ ']' :: rest)) =
        some (.arr (acc ++ vs), rest)) ∧
    (∀ (kvs : List (String × Value)) (acc : List (String × Value))
      (ilevel clevel : Nat) (rest : List Char),
      1 + fuelNeedMembers kvs ≤ fuel →
      parseObjRest fuel acc
        (renderObjTail kvs ilevel ++ '\n' :: (indentChars clevel ++ '\x7d' :: rest)) =
        some (.obj (acc ++ kvs), rest)) ∧
    (∀ (k : String) (v : Value) (ilevel : Nat) (rest : List Char),
      fuelNeed v + 1 ≤ fuel → noDigitHead rest = true →
      parseMember fuel (strChars k ++ ':' :: ' ' :: (renderValue v ilevel ++ rest)) =
        some ((k, v), rest)) := by
  induction fuel using Nat.strong_induction_on with
  | _ fuel ih =>
  refine ⟨?_, ?_, ?_, ?_⟩
  · -- A: values
    intro v level rest hfuel hrest
    obtain ⟨f, rfl⟩ : ∃ f, fuel = f + 1 :=
      ⟨fuel - 1, by have := fuelNeed_pos v; omega⟩
    cases v with
    | null =>
      simp only [renderValue, List.cons_append, List.nil_append, parseValue]
      rw [skipWs_cons_not (by decide)]
      show parseValueCore f 'n' ('u' :: 'l' :: 'l' :: rest) = some (Value.null, rest)
      rw [parseValueCore]
      simp [parseExact]
    | bool b =>
      cases b with
      | true =>
        simp only [renderValue, List.cons_append, List.nil_append, parseValue]
        rw [skipWs_cons_not (by decide)]
        show parseValueCore f 't' ('r' :: 'u' :: 'e' :: rest) =
          some (Value.bool true, rest)
        rw [parseValueCore]
        simp [parseExact]
      | false =>
        simp only [renderValue, List.cons_append, List.nil_append, parseValue]
        rw [skipWs_cons_not (by decide)]
        show parseValueCore f 'f' ('a' :: 'l' :: 's' :: 'e' :: rest) =
          some (Value.bool false, rest)
        rw [parseValueCore]
        simp [parseExact]
    | int n =>
      simp only [renderValue]
      rw [intChars]
      by_cases hn : n < 0
      · rw [if_pos hn, List.cons_append]
        simp only [parseValue]
        rw [skipWs_cons_not (by decide)]
        show parseValueCore f '-' (natDigits (-n).toNat ++ rest) =
          some (Value.int n, rest)
        rw [parseValueCore]
        show mkNegInt (parsePosInt (natDigits (-n).toNat ++ rest)) =
          some (Value.int n, rest)
        rw [parsePosInt_spec _ hrest]
        show some (Value.int (-(((-n).toNat : Nat) : Int)), rest) =
          some (Value.int n, rest)
        have hx : (-(((-n).toNat : Nat) : Int)) = n := by omega
        rw [hx]
      · rw [if_neg hn]
        obtain ⟨d, ds, hshape⟩ : ∃ d ds, natDigits n.toNat = d :: ds := by
          cases h' : natDigits n.toNat with
          | nil => exact absurd h' (natDigits_ne_nil _)
          | cons d ds => exact ⟨d, ds, rfl⟩
        have hd : isDigitChar d = true :=
          natDigits_digits _ d (by rw [hshape]; simp)
        rw [hshape, List.cons_append]
        simp only [parseValue]
        rw [skipWs_cons_not (digit_not_ws hd)]
        show parseValueCore f d (ds ++ rest) = some (Value.int n, rest)
        rw [parseValueCore]
        rw [if_neg (digit_ne hd '"' (by decide)),
          if_neg (digit_ne hd '\x7b' (by decide)),
          if_neg (digit_ne hd '[' (by decide)),
          if_neg (digit_ne hd 't' (by decide)),
          if_neg (digit_ne hd 'f' (by decide)),
          if_neg (digit_ne hd 'n' (by decide)),
          if_neg (digit_ne hd '-' (by decide)),
          if_pos hd]
        rw [← List.cons_append, ← hshape, parsePosInt_spec _ hrest]
        show some (Value.int ((n.toNat : Nat) : Int), rest) = some (Value.int n, rest)
        have hx : ((n.toNat : Nat) : Int) = n := by omega
        rw [hx]
    | str s =>
      have hin : renderValue (.str s) level ++ rest =
          '"' :: (escapeChars s.data ++ '"' :: rest) := by
        simp [renderValue, strChars, List.append_assoc]
      rw [hin]
      simp only [parseValue]
      rw [skipWs_cons_not (by decide)]
      show parseValueCore f '"' (escapeChars s.data ++ '"' :: rest) =
        some (Value.str s, rest)
      rw [parseValueCore, if_pos rfl, parse_escapeChars]
      show some (Value.str (String.mk s.data), rest) = some (Value.str s, rest)
      rw [string_mk_data]
    | arr elems =>
      cases elems with
      | nil =>
        obtain ⟨g, rfl⟩ : ∃ g, f = g + 1 :=
          ⟨f - 1, by simp [fuelNeed, fuelNeedList] at hfuel; omega⟩
        simp only [renderValue, List.cons_append, List.nil_append, parseValue]
        rw [skipWs_cons_not (by decide)]
        show parseValueCore (g + 1) '[' (']' :: rest) = some (Value.arr [], rest)
        rw [parseValueCore]
        show parseArr (g + 1) (']' :: rest) = some (Value.arr [], rest)
        simp only [parseArr]
        rw [skipWs_cons_not (by decide)]
        show parseArrCore g ']' rest = some (Value.arr [], rest)
        rw [parseArrCore]
        simp
      | cons v vs =>
        obtain ⟨g, rfl⟩ : ∃ g, f = g + 1 := by
          refine ⟨f - 1, ?_⟩
          simp only [fuelNeed, fuelNeedList] at hfuel
          have := fuelNeed_pos v
          omega
        have hfl : fuelNeed v + 1 + fuelNeedList vs + 2 ≤ g + 2 := by
          simpa [fuelNeed, fuelNeedList] using hfuel
        have hin : renderValue (.arr (v :: vs)) level ++ rest =
            '[' :: ('\n' :: (indentChars (level + 1) ++ (renderValue v (level + 1) ++
              (renderArrTail vs (level + 1) ++
                ('\n' :: (indentChars level ++ (']' :: rest))))))) := by
          simp [renderValue, List.append_assoc]
        rw [hin]
        simp only [parseValue]
        rw [skipWs_cons_not (by decide)]
        show parseValueCore (g + 1) '[' ('\n' :: (indentChars (level + 1) ++
          (renderValue v (level + 1) ++ (renderArrTail vs (level + 1) ++
            ('\n' :: (indentChars level ++ (']' :: rest))))))) =
          some (Value.arr (v :: vs), rest)
        rw [parseValueCore]
        show parseArr (g + 1) ('\n' :: (indentChars (level + 1) ++
          (renderValue v (level + 1) ++ (renderArrTail vs (level + 1) ++
            ('\n' :: (indentChars level ++ (']' :: rest))))))) =
          some (Value.arr (v :: vs), rest)
        simp only [parseArr]
        rw [skipWs_cons_ws (by decide), skipWs_append indentChars_ws]
        obtain ⟨c, cs, hhead, hnws, hne⟩ := renderValue_head v (level + 1)
        rw [hhead, List.cons_append, skipWs_cons_not hnws]
        show parseArrCore g c (cs ++ (renderArrTail vs (level + 1) ++
          ('\n' :: (indentChars level ++ (']' :: rest))))) =
          some (Value.arr (v :: vs), rest)
        rw [parseArrCore, if_neg hne, ← List.cons_append, ← hhead]
        have hA := (ih g (by omega)).1 v (level + 1)
          (renderArrTail vs (level + 1) ++ ('\n' :: (indentChars level ++ (']' :: rest))))
          (by omega) (noDigit_arrTail vs (level + 1) _)
        rw [hA]
        simp only [parseArrStep]
        show parseArrRest g [v]
          (renderArrTail vs (level + 1) ++ ('\n' :: (indentChars level ++ (']' :: rest)))) =
          some (Value.arr (v :: vs), rest)
        have hB := (ih g (by omega)).2.1 vs [v] (level + 1) level rest (by omega)
        rw [hB]
        simp
    | obj members =>
      cases members with
      | nil =>
        obtain ⟨g, rfl⟩ : ∃ g, f = g + 1 :=
          ⟨f - 1, by simp [fuelNeed, fuelNeedMembers] at hfuel; omega⟩
        simp only [renderValue, List.cons_append, List.nil_append, parseValue]
        rw [skipWs_cons_not (by decide)]
        show parseValueCore (g + 1) '\x7b' ('\x7d' :: rest) = some (Value.obj [], rest)
        rw [parseValueCore]
        show parseObj (g + 1) ('\x7d' :: rest) = some (Value.obj [], rest)
        simp only [parseObj]
        rw [skipWs_cons_not (by decide)]
        show parseObjCore g '\x7d' rest = some (Value.obj [], rest)
        rw [parseObjCore]
        simp
      | cons kv kvs =>
        obtain ⟨k, v⟩ := kv
        obtain ⟨g, rfl⟩ : ∃ g, f = g + 1 := by
          refine ⟨f - 1, ?_⟩
          simp only [fuelNeed, fuelNeedMembers] at hfuel
          have := fuelNeed_pos v
          omega
        have hfl : fuelNeed v + 2 + fuelNeedMembers kvs + 2 ≤ g + 2 := by
          simpa [fuelNeed, fuelNeedMembers] using hfuel
        have hin : renderValue (.obj ((k, v) :: kvs)) level ++ rest =
            '\x7b' :: ('\n' :: (indentChars (level + 1) ++ ('"' ::
              (escapeChars k.data ++ ('"' :: (':' :: (' ' ::
                (renderValue v (level + 1) ++ (renderObjTail kvs (level + 1) ++
                  ('\n' :: (indentChars level ++ ('\x7d' :: rest)))))))))))) := by
          simp [renderValue, strChars, List.append_assoc]
        rw [hin]
        simp only [parseValue]
        rw [skipWs_cons_not (by decide)]
        show parseValueCore (g + 1) '\x7b' ('\n' :: (indentChars (level + 1) ++ ('"' ::
          (escapeChars k.data ++ ('"' :: (':' :: (' ' ::
            (renderValue v (level + 1) ++ (renderObjTail kvs (level + 1) ++
              ('\n' :: (indentChars level ++ ('\x7d' :: rest)))))))))))) =
          some (Value.obj ((k, v) :: kvs), rest)
        rw [parseValueCore]
        show parseObj (g + 1) ('\n' :: (indentChars (level + 1) ++ ('"' ::
          (escapeChars k.data ++ ('"' :: (':' :: (' ' ::
            (renderValue v (level + 1) ++ (renderObjTail kvs (level + 1) ++
              ('\n' :: (indentChars level ++ ('\x7d' :: rest)))))))))))) =
          some (Value.obj ((k, v) :: kvs), rest)
        simp only [parseObj]
        rw [skipWs_cons_ws (by decide), skipWs_append indentChars_ws,
          skipWs_cons_not (by decide)]
        show parseObjCore g '"' (escapeChars k.data ++ ('"' :: (':' :: (' ' ::
          (renderValue v (level + 1) ++ (renderObjTail kvs (level + 1) ++
            ('\n' :: (indentChars level ++ ('\x7d' :: rest))))))))) =
          some (Value.obj ((k, v) :: kvs), rest)
        rw [parseObjCore, if_neg (by decide)]
        have hmem : strChars k ++ ':' :: ' ' :: (renderValue v (level + 1) ++
            (renderObjTail kvs (level + 1) ++
              ('\n' :: (indentChars level ++ ('\x7d' :: rest))))) =
            '"' :: (escapeChars k.data ++ ('"' :: (':' :: (' ' ::
              (renderValue v (level + 1) ++ (renderObjTail kvs (level + 1) ++
                ('\n' :: (indentChars level ++ ('\x7d' :: rest))))))))) := by
          simp [strChars, List.append_assoc]
        rw [← hmem]
        have hD := (ih g (by omega)).2.2.2 k v (level + 1)
          (renderObjTail kvs (level + 1) ++
            ('\n' :: (indentChars level ++ ('\x7d' :: rest))))
          (by omega) (noDigit_objTail kvs (level + 1) _)
        rw [hD]
        simp only [parseObjStep]
        show parseObjRest g [(k, v)]
          (renderObjTail kvs (level + 1) ++
            ('\n' :: (indentChars level ++ ('\x7d' :: rest)))) =
          some (Value.obj ((k, v) :: kvs), rest)
        have hC := (ih g (by omega)).2.2.1 kvs [(k, v)] (level + 1) level rest (by omega)
        rw [hC]
        simp
  · -- B: array tails
    intro vs acc ilevel clevel rest hfuel
    obtain ⟨f, rfl⟩ : ∃ f, fuel = f + 1 := ⟨fuel - 1, by omega⟩
    cases vs with
    | nil =>
      simp only [renderArrTail, List.nil_append, parseArrRest]
      rw [skipWs_cons_ws (by decide), skipWs_append indentChars_ws,
        skipWs_cons_not (by decide)]
      show parseArrRestCore f acc ']' rest = some (Value.arr (acc ++ []), rest)
      rw [parseArrRestCore]
      simp
    | cons v vs =>
      have hfl : fuelNeed v + 1 + fuelNeedList vs + 1 ≤ f + 1 := by
        simp only [fuelNeedList] at hfuel
        omega
      have hin : renderArrTail (v :: vs) ilevel ++
          '\n' :: (indentChars clevel ++ ']' :: rest) =
          ',' :: ('\n' :: (indentChars ilevel ++ (renderValue v ilevel ++
            (renderArrTail vs ilevel ++
              ('\n' :: (indentChars clevel ++ (']' :: rest))))))) := by
        simp [renderArrTail, List.append_assoc]
      rw [hin]
      simp only [parseArrRest]
      rw [skipWs_cons_not (by decide)]
      show parseArrRestCore f acc ',' ('\n' :: (indentChars ilevel ++
        (renderValue v ilevel ++ (renderArrTail vs ilevel ++
          ('\n' :: (indentChars clevel ++ (']' :: rest))))))) =
        some (Value.arr (acc ++ (v :: vs)), rest)
      rw [parseArrRestCore, if_pos rfl]
      have hws : ('\n' :: (indentChars ilevel ++ (renderValue v ilevel ++
          (renderArrTail vs ilevel ++
            ('\n' :: (indentChars clevel ++ (']' :: rest))))))) =
          ('\n' :: indentChars ilevel) ++ (renderValue v ilevel ++
            (renderArrTail vs ilevel ++
              ('\n' :: (indentChars clevel ++ (']' :: rest))))) := by
        simp
      rw [hws, parseValue_ws (nlIndent_ws ilevel)]
      have hA := (ih f (by omega)).1 v ilevel
        (renderArrTail vs ilevel ++ ('\n' :: (indentChars clevel ++ (']' :: rest))))
        (by omega) (noDigit_arrTail vs ilevel _)
      rw [hA]
      simp only [parseArrContinue]
      show parseArrRest f (acc ++ [v])
        (renderArrTail vs ilevel ++ ('\n' :: (indentChars clevel ++ (']' :: rest)))) =
        some (Value.arr (acc ++ (v :: vs)), rest)
      have hB := (ih f (by omega)).2.1 vs (acc ++ [v]) ilevel clevel rest (by omega)
      rw [hB]
      simp
  · -- C: object tails
    intro kvs acc ilevel clevel rest hfuel
    obtain ⟨f, rfl⟩ : ∃ f, fuel = f + 1 := ⟨fuel - 1, by omega⟩
    cases kvs with
    | nil =>
      simp only [renderObjTail, List.nil_append, parseObjRest]
      rw [skipWs_cons_ws (by decide), skipWs_append indentChars_ws,
        skipWs_cons_not (by decide)]
      show parseObjRestCore f acc '\x7d' rest = some (Value.obj (acc ++ []), rest)
      rw [parseObjRestCore]
      simp
    | cons kv kvs =>
      obtain ⟨k, v⟩ := kv
      have hfl : fuelNeed v + 2 + fuelNeedMembers kvs + 1 ≤ f + 1 := by
        simp only [fuelNeedMembers] at hfuel
        omega
      have hin : renderObjTail ((k, v) :: kvs) ilevel ++
          '\n' :: (indentChars clevel ++ '\x7d' :: rest) =
          ',' :: ('\n' :: (indentChars ilevel ++ ('"' :: (escapeChars k.data ++
            ('"' :: (':' :: (' ' :: (renderValue v ilevel ++
              (renderObjTail kvs ilevel ++
                ('\n' :: (indentChars clevel ++ ('\x7d' :: rest)))))))))))) := by
        simp [renderObjTail, strChars, List.append_assoc]
      rw [hin]
      simp only [parseObjRest]
      rw [skipWs_cons_not (by decide)]
      show parseObjRestCore f acc ',' ('\n' :: (indentChars ilevel ++ ('"' ::
        (escapeChars k.data ++ ('"' :: (':' :: (' ' :: (renderValue v ilevel ++
          (renderObjTail kvs ilevel ++
            ('\n' :: (indentChars clevel ++ ('\x7d' :: rest)))))))))))) =
        some (Value.obj (acc ++ ((k, v) :: kvs)), rest)
      rw [parseObjRestCore, if_pos rfl]
      have hws : ('\n' :: (indentChars ilevel ++ ('"' :: (escapeChars k.data ++
          ('"' :: (':' :: (' ' :: (renderValue v ilevel ++
            (renderObjTail kvs ilevel ++
              ('\n' :: (indentChars clevel ++ ('\x7d' :: rest)))))))))))) =
          ('\n' :: indentChars ilevel) ++ ('"' :: (escapeChars k.data ++
            ('"' :: (':' :: (' ' :: (renderValue v ilevel ++
              (renderObjTail kvs ilevel ++
                ('\n' :: (indentChars clevel ++ ('\x7d' :: rest)))))))))) := by
        simp
      rw [hws, parseMember_ws (nlIndent_ws ilevel)]
      have hmem : strChars k ++ ':' :: ' ' :: (renderValue v ilevel ++
          (renderObjTail kvs ilevel ++
            ('\n' :: (indentChars clevel ++ ('\x7d' :: rest))))) =
          '"' :: (escapeChars k.data ++ ('"' :: (':' :: (' ' ::
            (renderValue v ilevel ++ (renderObjTail kvs ilevel ++
              ('\n' :: (indentChars clevel ++ ('\x7d' :: rest))))))))) := by
        simp [strChars, List.append_assoc]
      rw [← hmem]
      have hD := (ih f (by omega)).2.2.2 k v ilevel
        (renderObjTail kvs ilevel ++
          ('\n' :: (indentChars clevel ++ ('\x7d' :: rest))))
        (by omega) (noDigit_objTail kvs ilevel _)
      rw [hD]
      simp only [parseObjContinue]
      show parseObjRest f (acc ++ [(k, v)])
        (renderObjTail kvs ilevel ++
          ('\n' :: (indentChars clevel ++ ('\x7d' :: rest)))) =
        some (Value.obj (acc ++ ((k, v) :: kvs)), rest)
      have hC := (ih f (by omega)).2.2.1 kvs (acc ++ [(k, v)]) ilevel clevel rest
        (by omega)
      rw [hC]
      simp
  · -- D: members
    intro k v ilevel rest hfuel hrest
    obtain ⟨f, rfl⟩ : ∃ f, fuel = f + 1 := ⟨fuel - 1, by omega⟩
    have hin : strChars k ++ ':' :: ' ' :: (renderValue v ilevel ++ rest) =
        '"' :: (escapeChars k.data ++ ('"' :: (':' :: (' ' ::
          (renderValue v ilevel ++ rest))))) := by
      simp [strChars, List.append_assoc]
    rw [hin]
    simp only [parseMember]
    rw [skipWs_cons_not (by decide)]
    show parseMemberCore f '"' (escapeChars k.data ++ ('"' :: (':' :: (' ' ::
      (renderValue v ilevel ++ rest))))) = some ((k, v), rest)
    rw [parseMemberCore, if_pos rfl, parse_escapeChars]
    simp only [parseMemberKeyed]
    show parseMemberColon f k.data (skipWs (':' :: (' ' ::
      (renderValue v ilevel ++ rest)))) = some ((k, v), rest)
    rw [skipWs_cons_not (by decide)]
    simp only [parseMemberColon]
    simp only [if_true]
    have hsp : (' ' :: (renderValue v ilevel ++ rest)) =
        [' '] ++ (renderValue v ilevel ++ rest) := rfl
    rw [hsp, parseValue_ws (by intro c hc; simp at hc; rw [hc]; decide)]
    have hA := (ih f (by omega)).1 v ilevel rest (by omega) hrest
    rw [hA]
    show some ((String.mk k.data, v), rest) = some ((k, v), rest)
    rw [string_mk_data]

mutual

theorem fuelNeed_le_render (v : Value) (level : Nat) :
    fuelNeed v ≤ (renderValue v level).length + 1 := by
  cases v with
  | null => simp [fuelNeed, renderValue]
  | bool b => cases b <;> simp [fuelNeed, renderValue]
  | int n => simp [fuelNeed]
  | str s => simp [fuelNeed]
  | arr elems =>
    cases elems with
    | nil => simp [fuelNeed, fuelNeedList, renderValue]
    | cons v vs =>
      have h1 := fuelNeed_le_render v (level + 1)
      have h2 := fuelNeedList_le_render vs (level + 1)
      simp only [fuelNeed, fuelNeedList, renderValue, List.length_cons,
        List.length_append]
      omega
  | obj members =>
    cases members with
    | nil => simp [fuelNeed, fuelNeedMembers, renderValue]
    | cons kv kvs =>
      obtain ⟨k, v⟩ := kv
      have h1 := fuelNeed_le_render v (level + 1)
      have h2 := fuelNeedMembers_le_render kvs (level + 1)
      simp only [fuelNeed, fuelNeedMembers, renderValue, List.length_cons,
        List.length_append]
      omega

theorem fuelNeedList_le_render (vs : List Value) (level : Nat) :
    fuelNeedList vs ≤ (renderArrTail vs level).length := by
  cases vs with
  | nil => simp [fuelNeedList, renderArrTail]
  | cons v vs =>
    have h1 := fuelNeed_le_render v level
    have h2 := fuelNeedList_le_render vs level
    simp only [fuelNeedList, renderArrTail, List.length_cons, List.length_append]
    omega

theorem fuelNeedMembers_le_render (kvs : List (String × Value)) (level : Nat) :
    fuelNeedMembers kvs ≤ (renderObjTail kvs level).length := by
  cases kvs with
  | nil => simp [fuelNeedMembers, renderObjTail]
  | cons kv kvs =>
    obtain ⟨k, v⟩ := kv
    have h1 := fuelNeed_le_render v level
    have h2 := fuelNeedMembers_le_render kvs level
    simp only [fuelNeedMembers, renderObjTail, List.length_cons, List.length_append]
    omega

end

theorem parseTop_render (v : Value) :
    parseTop (renderValue v 0 ++ ['\n']) = some v := by
  unfold parseTop
  have hlen : fuelNeed v ≤ (renderValue v 0 ++ ['\n']).length + 1 := by
    have := fuelNeed_le_render v 0
    simp only [List.length_append, List.length_singleton]
    omega
  have hA := (parser_complete ((renderValue v 0 ++ ['\n']).length + 1)).1 v 0 ['\n']
    hlen (by decide)
  rw [hA]
  rfl

/--
C7 (confirmed): for every valid bundle, decoding the exact bytes the script
writes returns the bundle unchanged — round-trip holds, arbitrary `metadata`
keys survive, and re-encoding the decoded bundle is byte-identical, so
repeated encoding of unchanged data is byte-stable. (Encoding is a pure
function of the bundle with insertion-ordered maps, so encoding the same
bundle twice is deterministic by construction.)
-/
theorem C7_roundtrip (b : Bundle)
    (hid : b.api_id.truthy = true) (hhash : b.api_hash.truthy = true) :
    decodeBundle (encodeBundle b) = Except.ok b ∧
    ∀ b', decodeBundle (encodeBundle b) = Except.ok b' →
      encodeBundle b' = encodeBundle b := by
  have hparse : parseTop (encodeBundle b) = some (bundleValue b) :=
    parseTop_render (bundleValue b)
  have hdec : decodeBundle (encodeBundle b) = Except.ok b := by
    unfold decodeBundle
    rw [hparse]
    show (if (b.api_id.truthy && b.api_hash.truthy) = true then Except.ok b
      else Except.error ValidationError.MissingField) = Except.ok b
    rw [hid, hhash]
    rfl
  refine ⟨hdec, ?_⟩
  intro b' hb'
  rw [hdec] at hb'
  injection hb' with hb'
  rw [hb']

/-- C7 witness: a concrete bundle with unknown metadata keys, escapes and a
negative integer survives the round-trip. -/
theorem C7_roundtrip_witness :
    decodeBundle (encodeBundle
      { name := "acct", pool := "default", api_id := Value.int 12345,
        api_hash := Value.str "S", phone := Value.null,
        username := Value.str "u", string_session := "1Apa\n=",
        metadata := [("unknown key", Value.arr [Value.int (-7), Value.bool true]),
          ("app_hash", Value.str "S")] }) =
    Except.ok
      { name := "acct", pool := "default", api_id := Value.int 12345,
        api_hash := Value.str "S", phone := Value.null,
        username := Value.str "u", string_session := "1Apa\n=",
        metadata := [("unknown key", Value.arr [Value.int (-7), Value.bool true]),
          ("app_hash", Value.str "S")] } :=
  (C7_roundtrip
    { name := "acct", pool := "default", api_id := Value.int 12345,
      api_hash := Value.str "S", phone := Value.null,
      username := Value.str "u", string_session := "1Apa\n=",
      metadata := [("unknown key", Value.arr [Value.int (-7), Value.bool true]),
        ("app_hash", Value.str "S")] }
    rfl rfl).1
